import Mathlib

/-!
Shallow embedding of the `timed_cache` package (src/main.go).

The cache keeps a Recency List (`container/list.List` of `*entry`) together
with an Index Map `items : map[interface{}]*list.Element`.  We model the
Recency List as a Lean `List` stored BACK-first: the head of the list is the
back (oldest) element and the last element is the front (newest), so
`PushFront` appends at the end and the back-to-front traversals of
`purgeExpired` and `Keys` are plain head-first recursion.

The Index Map maps a key to a handle (a `*list.Element`) of the node holding
that key's entry.  We model its domain as a list of keys (`items`), and a map
lookup (`c.items[key]`) resolves the handle by searching the Recency List for
the entry with that key (`mapGet` below) — exact whenever the map's domain
matches the list's key set, which is the structural invariant proved below
for every reachable state.

The eviction callback `onEvictCall` is a Go function value that may be nil;
we model its nil-ness as a `Bool` field and record the sequence of actual
callback invocations (each a `(key, value)` pair) as an explicit trace
returned by every operation, with the source's `if c.onEvictCall != nil`
guard reflected in `evict`.

Time: every operation reads `time.Now().Unix()` (an `int64` number of
seconds); we pass that instant as an explicit `now : Int` argument.  The
mutex only serializes calls and has no sequential content.
-/

/-- A Recency List entry (src/main.go lines 81-85): last-touch Unix time in
seconds, key and value. -/
structure entry (K V : Type) where
  tm : Int
  key : K
  value : V
deriving DecidableEq, Repr

/-- The cache state (src/main.go lines 73-79): Recency List (back-first),
the Index Map's key set, the configured duration in seconds, and whether an
eviction callback was supplied (`onEvictCall != nil`). -/
structure TimedCache (K V : Type) where
  evictList : List (entry K V)
  items : List K
  duration : Int
  onEvictCall : Bool
deriving DecidableEq, Repr

/-- `NewTimedCache` (src/main.go lines 88-96): empty list, empty map, the
given duration and callback. -/
def NewTimedCache (K V : Type) (duration : Int) (onEvictCall : Bool) :
    TimedCache K V :=
  ⟨[], [], duration, onEvictCall⟩

namespace TimedCache

variable {K V : Type} [DecidableEq K]

/-- One guarded callback invocation (`if c.onEvictCall != nil {
c.onEvictCall(k, v) }`): the trace of calls it produces. -/
def evict (c : TimedCache K V) (k : K) (v : V) : List (K × V) :=
  if c.onEvictCall then [(k, v)] else []

/-- Removal of the first list node holding key `k`; models
`c.evictList.Remove(e)` where `e` is the node the Index Map associates to
`k` (unique by the structural invariant). -/
def removeKey (k : K) : List (entry K V) → List (entry K V)
  | [] => []
  | e :: es => if e.key = k then es else e :: removeKey k es

/-- `removeElement` (src/main.go lines 229-236): unlink the node from the
Recency List, delete its key from the Index Map, and invoke the eviction
callback (guarded by the nil check) with the entry's key and value. -/
def removeElement (c : TimedCache K V) (e : entry K V) :
    TimedCache K V × List (K × V) :=
  ({ c with evictList := removeKey e.key c.evictList,
            items := c.items.erase e.key },
   evict c e.key e.value)

/-- `purgeExpired` (src/main.go lines 244-257).  The Go loop is
`for e := c.evictList.Back(); e != nil; e = e.Prev()`: it looks at the back
(oldest) element; if `now - e.tm > duration` it calls `c.removeElement(e)`,
otherwise it returns at once.  `container/list.(*List).remove` sets the
removed element's `prev` and `list` pointers to nil, so after a removal the
loop step `e = e.Prev()` yields nil and the loop exits.  Each call therefore
removes at most the single back element, and only when that element is
expired (strictly older than `duration`). -/
def purgeExpired (now : Int) (c : TimedCache K V) :
    TimedCache K V × List (K × V) :=
  match c.evictList with
  | [] => (c, [])
  | e :: _ =>
    if now - e.tm > c.duration then removeElement c e
    else (c, [])

/-- `PurgeExpired` (src/main.go lines 238-242): take the lock and run the
sweep. -/
def PurgeExpired (now : Int) (c : TimedCache K V) :
    TimedCache K V × List (K × V) :=
  purgeExpired now c

/-- Model of the Index Map lookup `ent, ok := c.items[key]`: a present key's
handle resolves to the Recency List entry holding that key. -/
def mapGet (c : TimedCache K V) (k : K) : Option (entry K V) :=
  if k ∈ c.items then c.evictList.find? (fun e => e.key == k) else none

/-- `Purge` (src/main.go lines 99-110): iterate the Index Map invoking the
guarded callback for every stored entry and deleting its key, then
re-initialize the Recency List.  Go's map iteration order is unspecified; we
fix back-to-front list order for the trace.  Note the source's `Purge` does
NOT call `purgeExpired` first. -/
def Purge (c : TimedCache K V) : TimedCache K V × List (K × V) :=
  ({ c with evictList := [], items := [] },
   if c.onEvictCall then c.evictList.map (fun e => (e.key, e.value)) else [])

/-- `Add` (src/main.go lines 113-127): lock, sweep, and if the key is absent
from the Index Map push a fresh entry (timestamp `now`) at the front of the
Recency List, register it in the map and return true; if the key is present
return false without touching anything. -/
def Add (now : Int) (k : K) (v : V) (c : TimedCache K V) :
    Bool × TimedCache K V × List (K × V) :=
  if k ∈ (purgeExpired now c).1.items then
    (false, (purgeExpired now c).1, (purgeExpired now c).2)
  else
    (true,
     { (purgeExpired now c).1 with
         evictList := (purgeExpired now c).1.evictList ++ [⟨now, k, v⟩],
         items := k :: (purgeExpired now c).1.items },
     (purgeExpired now c).2)

/-- `Update` (src/main.go lines 130-143): lock, sweep, and if the key is
present move its node to the front, store the new value and refresh the
timestamp to `now`, returning true; otherwise return false. -/
def Update (now : Int) (k : K) (v : V) (c : TimedCache K V) :
    Bool × TimedCache K V × List (K × V) :=
  match mapGet (purgeExpired now c).1 k with
  | some e =>
    (true,
     { (purgeExpired now c).1 with
         evictList :=
           removeKey k (purgeExpired now c).1.evictList ++ [⟨now, e.key, v⟩] },
     (purgeExpired now c).2)
  | none => (false, (purgeExpired now c).1, (purgeExpired now c).2)

/-- `Get` (src/main.go lines 146-161): lock, sweep, and if the key is
present move its node to the front, refresh its timestamp to `now` and
return its value; otherwise return nothing.  (The source's
`ent.Value.(*entry) == nil` test can never hold: every node stores the
non-nil `*entry` created in `Add`.) -/
def Get (now : Int) (k : K) (c : TimedCache K V) :
    Option V × TimedCache K V × List (K × V) :=
  match mapGet (purgeExpired now c).1 k with
  | some e =>
    (some e.value,
     { (purgeExpired now c).1 with
         evictList :=
           removeKey k (purgeExpired now c).1.evictList ++
             [⟨now, e.key, e.value⟩] },
     (purgeExpired now c).2)
  | none => (none, (purgeExpired now c).1, (purgeExpired now c).2)

/-- `Contains` (src/main.go lines 165-173): lock, sweep, and report whether
the Index Map holds the key. -/
def Contains (now : Int) (k : K) (c : TimedCache K V) :
    Bool × TimedCache K V × List (K × V) :=
  (decide (k ∈ (purgeExpired now c).1.items), (purgeExpired now c).1,
   (purgeExpired now c).2)

/-- `Peek` (src/main.go lines 177-187): lock, sweep, and return the present
key's value without refreshing timestamp or position. -/
def Peek (now : Int) (k : K) (c : TimedCache K V) :
    Option V × TimedCache K V × List (K × V) :=
  match mapGet (purgeExpired now c).1 k with
  | some e => (some e.value, (purgeExpired now c).1, (purgeExpired now c).2)
  | none => (none, (purgeExpired now c).1, (purgeExpired now c).2)

/-- `Remove` (src/main.go lines 190-201): lock, sweep, and if the key is
present remove its node via `removeElement` and return true; otherwise
return false. -/
def Remove (now : Int) (k : K) (c : TimedCache K V) :
    Bool × TimedCache K V × List (K × V) :=
  match mapGet (purgeExpired now c).1 k with
  | some e =>
    (true, (removeElement (purgeExpired now c).1 e).1,
     (purgeExpired now c).2 ++ (removeElement (purgeExpired now c).1 e).2)
  | none => (false, (purgeExpired now c).1, (purgeExpired now c).2)

/-- `Keys` (src/main.go lines 204-217): lock, sweep, and list the keys from
oldest (back) to newest (front).  (The source sizes the slice by
`len(c.items)` and fills it by list traversal; the two agree under the
structural invariant.) -/
def Keys (now : Int) (c : TimedCache K V) :
    List K × TimedCache K V × List (K × V) :=
  ((purgeExpired now c).1.evictList.map (fun e => e.key),
   (purgeExpired now c).1, (purgeExpired now c).2)

/-- `Len` (src/main.go lines 220-226): lock, sweep, and return the Recency
List's length. -/
def Len (now : Int) (c : TimedCache K V) :
    Int × TimedCache K V × List (K × V) :=
  (((purgeExpired now c).1.evictList.length : Int), (purgeExpired now c).1,
   (purgeExpired now c).2)

/-- Structural invariant: the Index Map's key set is a permutation of the
Recency List's key sequence (same members, same cardinality). -/
def Inv (c : TimedCache K V) : Prop :=
  c.items.Perm (c.evictList.map fun e => e.key)

/-- One public call on the cache, with the `time.Now().Unix()` instant it
observes. -/
inductive Op (K V : Type) where
  | add (now : Int) (k : K) (v : V)
  | update (now : Int) (k : K) (v : V)
  | get (now : Int) (k : K)
  | peek (now : Int) (k : K)
  | containsQ (now : Int) (k : K)
  | remove (now : Int) (k : K)
  | keys (now : Int)
  | len (now : Int)
  | purge
  | sweep (now : Int)

/-- The state reached after one public call. -/
def applyOp (c : TimedCache K V) : Op K V → TimedCache K V
  | .add now k v => (Add now k v c).2.1
  | .update now k v => (Update now k v c).2.1
  | .get now k => (Get now k c).2.1
  | .peek now k => (Peek now k c).2.1
  | .containsQ now k => (Contains now k c).2.1
  | .remove now k => (Remove now k c).2.1
  | .keys now => (Keys now c).2.1
  | .len now => (Len now c).2.1
  | .purge => (Purge c).1
  | .sweep now => (PurgeExpired now c).1

/-- The state reached from a fresh cache by a sequence of public calls. -/
def run (duration : Int) (onEvictCall : Bool) (ops : List (Op K V)) :
    TimedCache K V :=
  ops.foldl applyOp (NewTimedCache K V duration onEvictCall)

end TimedCache

open TimedCache in
/-- The spec's scenario, driven through the code: duration 4, Add(1,"a") at
t=0, Add(2,"b") at t=2, Add(3,"c") at t=4, Add(4,"d") at t=6 (this last Add
runs the sweep at t=6, which already evicts key 1 of age 6 > 4).  The
resulting Recency List holds keys 2, 3, 4 with timestamps 2, 4, 6. -/
def scenCache : TimedCache Nat String :=
  (Add 6 4 "d" (Add 4 3 "c" (Add 2 2 "b" (Add 0 1 "a"
    (NewTimedCache Nat String 4 true)).2.1).2.1).2.1).2.1

open TimedCache in
/-- A cache constructed with duration 0: Add(1,"a") and Add(2,"b") both at
t=0. -/
def zeroDurCache : TimedCache Nat String :=
  (Add 0 2 "b" (Add 0 1 "a" (NewTimedCache Nat String 0 true)).2.1).2.1

namespace TimedCache

variable {K V : Type} [DecidableEq K]

lemma map_removeKey (k : K) (l : List (entry K V)) :
    (removeKey k l).map (fun e => e.key) = (l.map fun e => e.key).erase k := by
  induction l with
  | nil => rfl
  | cons e es ih =>
    by_cases h : e.key = k
    · simp [removeKey, h, List.erase_cons]
    · simp [removeKey, h, List.erase_cons, ih]

lemma inv_removeElement (e : entry K V) {c : TimedCache K V} (h : Inv c) :
    Inv (removeElement c e).1 := by
  unfold Inv removeElement at *
  simpa [map_removeKey] using h.erase e.key

lemma inv_purgeExpired (now : Int) {c : TimedCache K V} (h : Inv c) :
    Inv (purgeExpired now c).1 := by
  rcases c with ⟨l, its, d, b⟩
  cases l with
  | nil => exact h
  | cons e es =>
    simp only [purgeExpired]
    split
    · exact inv_removeElement e h
    · exact h

lemma mapGet_some {c : TimedCache K V} {k : K} {e : entry K V}
    (h : mapGet c k = some e) :
    e ∈ c.evictList ∧ e.key = k := by
  unfold mapGet at h
  by_cases hk : k ∈ c.items
  · simp only [hk, if_true] at h
    refine ⟨List.mem_of_find?_eq_some h, ?_⟩
    have := List.find?_some h
    simpa using this
  · simp [hk] at h

lemma inv_moveToFront {c : TimedCache K V} {k : K} {e : entry K V}
    (h : Inv c) (he : mapGet c k = some e) (e' : entry K V)
    (hk : e'.key = e.key) :
    (c.items).Perm ((removeKey k c.evictList ++ [e']).map fun x => x.key) := by
  obtain ⟨hmem, hkey⟩ := mapGet_some he
  have hk_mem : k ∈ c.evictList.map (fun x => x.key) :=
    hkey ▸ List.mem_map_of_mem _ hmem
  have heq : (removeKey k c.evictList ++ [e']).map (fun x => x.key) =
      ((c.evictList.map fun x => x.key).erase k) ++ [k] := by
    rw [List.map_append, map_removeKey]
    simp [hk, hkey]
  rw [heq]
  exact h.trans ((List.perm_cons_erase hk_mem).trans
    (List.perm_append_singleton _ _).symm)

lemma inv_Add (now : Int) (k : K) (v : V) {c : TimedCache K V} (h : Inv c) :
    Inv (Add now k v c).2.1 := by
  have h1 := inv_purgeExpired now h
  unfold Add
  by_cases hk : k ∈ (purgeExpired now c).1.items
  · simpa [hk] using h1
  · simp only [hk, if_false]
    unfold Inv at *
    simp only [List.map_append, List.map_cons, List.map_nil]
    exact (h1.cons k).trans (List.perm_append_singleton _ _).symm

lemma inv_Update (now : Int) (k : K) (v : V) {c : TimedCache K V}
    (h : Inv c) : Inv (Update now k v c).2.1 := by
  have h1 := inv_purgeExpired now h
  unfold Update
  cases hm : mapGet (purgeExpired now c).1 k with
  | none => exact h1
  | some e => exact inv_moveToFront h1 hm ⟨now, e.key, v⟩ rfl

lemma inv_Get (now : Int) (k : K) {c : TimedCache K V} (h : Inv c) :
    Inv (Get now k c).2.1 := by
  have h1 := inv_purgeExpired now h
  unfold Get
  cases hm : mapGet (purgeExpired now c).1 k with
  | none => exact h1
  | some e => exact inv_moveToFront h1 hm ⟨now, e.key, e.value⟩ rfl

lemma inv_Remove (now : Int) (k : K) {c : TimedCache K V} (h : Inv c) :
    Inv (Remove now k c).2.1 := by
  have h1 := inv_purgeExpired now h
  unfold Remove
  cases hm : mapGet (purgeExpired now c).1 k with
  | none => exact h1
  | some e => exact inv_removeElement e h1

lemma inv_Peek (now : Int) (k : K) {c : TimedCache K V} (h : Inv c) :
    Inv (Peek now k c).2.1 := by
  have h1 := inv_purgeExpired now h
  unfold Peek
  cases hm : mapGet (purgeExpired now c).1 k with
  | none => exact h1
  | some e => exact h1

lemma inv_applyOp {c : TimedCache K V} (h : Inv c) (op : Op K V) :
    Inv (applyOp c op) := by
  cases op with
  | add now k v => exact inv_Add now k v h
  | update now k v => exact inv_Update now k v h
  | get now k => exact inv_Get now k h
  | peek now k => exact inv_Peek now k h
  | containsQ now k => exact inv_purgeExpired now h
  | remove now k => exact inv_Remove now k h
  | keys now => exact inv_purgeExpired now h
  | len now => exact inv_purgeExpired now h
  | purge => exact List.Perm.refl []
  | sweep now => exact inv_purgeExpired now h

lemma inv_run (duration : Int) (onEvictCall : Bool) (ops : List (Op K V)) :
    Inv (run duration onEvictCall ops) := by
  suffices h : ∀ c : TimedCache K V, Inv c → Inv (ops.foldl applyOp c) from
    h _ (List.Perm.refl [])
  induction ops with
  | nil => exact fun c hc => hc
  | cons op ops ih => exact fun c hc => ih _ (inv_applyOp hc op)

lemma onEvictCall_purgeExpired (now : Int) (c : TimedCache K V) :
    (purgeExpired now c).1.onEvictCall = c.onEvictCall := by
  rcases c with ⟨l, its, d, b⟩
  cases l with
  | nil => rfl
  | cons e es =>
    simp only [purgeExpired]
    split <;> rfl

lemma trace_purgeExpired_nil (now : Int) {c : TimedCache K V}
    (h : c.onEvictCall = false) : (purgeExpired now c).2 = [] := by
  rcases c with ⟨l, its, d, b⟩
  cases l with
  | nil => rfl
  | cons e es =>
    simp only [purgeExpired]
    split
    · simp [removeElement, evict, h] at *
      exact h
    · rfl

end TimedCache

open TimedCache

/-- C1: the expiration sweep does NOT remove every over-age entry.  In the
spec's own scenario (duration 4; adds at t=0,2,4,6, where the Add at t=6
already sweeps out key 1), the single sweep `PurgeExpired()` at t=10 evicts
only the back entry, key 2, and leaves key 3 in the cache although its age
10 - 4 = 6 exceeds duration 4: the remaining keys are [3, 4], not the
claimed [4].  The Go loop stops after one removal because
`container/list.Remove` nils the removed element's `prev`/`list` pointers,
so `e.Prev()` returns nil. -/
theorem purgeExpired_removes_only_back_entry :
    (PurgeExpired 10 scenCache).2 = [(2, "b")] ∧
    (PurgeExpired 10 scenCache).1.evictList.map (fun e => e.key) = [3, 4] ∧
    ∃ e ∈ (PurgeExpired 10 scenCache).1.evictList,
      10 - e.tm > scenCache.duration := by decide

/-- C2: callers CAN observe expired data.  In the scenario state at t=10,
`Contains(3)` runs the sweep (which only evicts key 2) and then reports key
3 as present, although key 3's age 10 - 4 = 6 exceeds duration 4. -/
theorem contains_reports_expired_key :
    (Contains 10 3 scenCache).1 = true ∧
    ∃ e ∈ (Contains 10 3 scenCache).2.1.evictList,
      e.key = 3 ∧ 10 - e.tm > scenCache.duration := by decide

/-- C3: `PurgeExpired` is NOT idempotent.  On the scenario state at t=10 the
first sweep evicts key 2 leaving keys [3, 4]; a second sweep at the same
instant evicts key 3 as well, so the contents after the second call differ
from the contents after the first. -/
theorem purgeExpired_not_idempotent :
    (PurgeExpired 10 (PurgeExpired 10 scenCache).1).1 ≠
      (PurgeExpired 10 scenCache).1 := by decide

/-- C4: the boundary claim fails in its second half.  After the sweep of
the scenario state at t=10, an entry whose age strictly exceeds the
duration (key 3, age 6 > 4) is still present — it was not purged by that
sweep — while the entry at the exact boundary (key 4, age 4 = duration) is
retained as claimed. -/
theorem expired_entry_survives_sweep :
    (∃ e ∈ (PurgeExpired 10 scenCache).1.evictList,
        10 - e.tm > scenCache.duration) ∧
    (∃ e ∈ (PurgeExpired 10 scenCache).1.evictList,
        10 - e.tm = scenCache.duration) := by decide

/-- C5: structural invariant.  After any sequence of public calls starting
from a fresh cache, the Index Map's domain has exactly the keys of the
entries in the Recency List, and the two structures have equal size. -/
theorem run_index_map_matches_recency_list {K V : Type} [DecidableEq K]
    (duration : Int) (onEvictCall : Bool) (ops : List (Op K V)) :
    (∀ k : K, k ∈ (run duration onEvictCall ops).items ↔
        k ∈ (run duration onEvictCall ops).evictList.map (fun e => e.key)) ∧
    (run duration onEvictCall ops).items.length =
      (run duration onEvictCall ops).evictList.length := by
  have h := inv_run (K := K) (V := V) duration onEvictCall ops
  exact ⟨fun k => h.mem_iff, by simpa using h.length_eq⟩

/-- C6: `Add` inserts a fresh entry with timestamp `now` at the front of the
Recency List (the end of the back-first list) and registers the key,
returning true, exactly when the key is absent from the Index Map after the
sweep; on a present key it returns false and leaves the post-sweep state
untouched (no value or timestamp overwrite). -/
theorem Add_contract {K V : Type} [DecidableEq K] (now : Int) (k : K) (v : V)
    (c : TimedCache K V) :
    (k ∉ (purgeExpired now c).1.items →
       (Add now k v c).1 = true ∧
       (Add now k v c).2.1.evictList =
         (purgeExpired now c).1.evictList ++ [⟨now, k, v⟩] ∧
       (Add now k v c).2.1.items = k :: (purgeExpired now c).1.items) ∧
    (k ∈ (purgeExpired now c).1.items →
       (Add now k v c).1 = false ∧
       (Add now k v c).2.1 = (purgeExpired now c).1) := by
  by_cases hk : k ∈ (purgeExpired now c).1.items <;> simp [TimedCache.Add, hk]

/-- Witness for C6: inserting key 1 into a fresh cache returns true;
re-adding the present key 1 returns false. -/
theorem Add_contract_witness :
    (Add 0 1 "a" (NewTimedCache Nat String 4 true)).1 = true ∧
    (Add 2 1 "x" (Add 0 1 "a" (NewTimedCache Nat String 4 true)).2.1).1 =
      false :=
  ⟨((Add_contract 0 1 "a" (NewTimedCache Nat String 4 true)).1
      (by decide)).1,
   ((Add_contract 2 1 "x"
      (Add 0 1 "a" (NewTimedCache Nat String 4 true)).2.1).2 (by decide)).1⟩

/-- C7: `Update` on a key the Index Map resolves after the sweep replaces
the entry's value, refreshes its timestamp to `now`, moves the node to the
front of the Recency List (the end of the back-first list) and returns
true; on an absent key it returns false and changes nothing beyond the
sweep. -/
theorem Update_contract {K V : Type} [DecidableEq K] (now : Int) (k : K)
    (v : V) (c : TimedCache K V) :
    (∀ e : entry K V, mapGet (purgeExpired now c).1 k = some e →
       (Update now k v c).1 = true ∧
       (Update now k v c).2.1.evictList =
         removeKey k (purgeExpired now c).1.evictList ++ [⟨now, e.key, v⟩] ∧
       (Update now k v c).2.1.items = (purgeExpired now c).1.items) ∧
    (mapGet (purgeExpired now c).1 k = none →
       (Update now k v c).1 = false ∧
       (Update now k v c).2.1 = (purgeExpired now c).1) := by
  constructor
  · intro e he
    simp [Update, he]
  · intro he
    simp [Update, he]

/-- Witness for C7: updating the present key 1 returns true and leaves it
at the front with the new value and timestamp; updating absent key 9
returns false. -/
theorem Update_contract_witness :
    (Update 2 1 "x" (Add 0 1 "a" (NewTimedCache Nat String 4 true)).2.1).1 =
      true ∧
    (Update 2 9 "x" (Add 0 1 "a" (NewTimedCache Nat String 4 true)).2.1).1 =
      false :=
  ⟨((Update_contract 2 1 "x"
      (Add 0 1 "a" (NewTimedCache Nat String 4 true)).2.1).1 ⟨0, 1, "a"⟩
      (by decide)).1,
   ((Update_contract 2 9 "x"
      (Add 0 1 "a" (NewTimedCache Nat String 4 true)).2.1).2 (by decide)).1⟩

/-- C8: `Get` on a resolved key moves the node to the front with its
timestamp refreshed to `now` (value unchanged) and returns the value, while
`Peek`, `Contains`, `Keys` and `Len` leave the cache state exactly as the
preceding sweep left it. -/
theorem Get_refreshes_while_readers_pure {K V : Type} [DecidableEq K]
    (now : Int) (k : K) (c : TimedCache K V) :
    (∀ e : entry K V, mapGet (purgeExpired now c).1 k = some e →
       (Get now k c).1 = some e.value ∧
       (Get now k c).2.1.evictList =
         removeKey k (purgeExpired now c).1.evictList ++
           [⟨now, e.key, e.value⟩]) ∧
    (Peek now k c).2.1 = (purgeExpired now c).1 ∧
    (Contains now k c).2.1 = (purgeExpired now c).1 ∧
    (Keys now c).2.1 = (purgeExpired now c).1 ∧
    (Len now c).2.1 = (purgeExpired now c).1 := by
  refine ⟨fun e he => by simp [Get, he], ?_, rfl, rfl, rfl⟩
  unfold Peek
  cases mapGet (purgeExpired now c).1 k <;> rfl

/-- Witness for C8: `Get` of the present key 1 returns its value "a". -/
theorem Get_refreshes_while_readers_pure_witness :
    (Get 2 1 (Add 0 1 "a" (NewTimedCache Nat String 4 true)).2.1).1 =
      some "a" :=
  ((Get_refreshes_while_readers_pure 2 1
      (Add 0 1 "a" (NewTimedCache Nat String 4 true)).2.1).1 ⟨0, 1, "a"⟩
      (by decide)).1

/-- C9: with duration 0, both entries of `zeroDurCache` (added at t=0) are
over-age at the t=1 sweep (age 1 > 0), yet the sweep removes only the back
entry and leaves one of them in the cache, contradicting "every entry
present before a sweep is removed by that sweep". -/
theorem nonpositive_duration_not_all_swept :
    (∀ e ∈ zeroDurCache.evictList, 1 - e.tm > zeroDurCache.duration) ∧
    (PurgeExpired 1 zeroDurCache).1.evictList.length = 1 := by decide

/-- C10: with no eviction callback configured (`onEvictCall = nil`), every
removal path — the sweep, `Remove`, `Purge`, and the sweeps run by the
other operations — produces no callback invocation: each call site is
guarded by the nil check modelled in `evict` and `Purge`. -/
theorem nil_callback_never_invoked {K V : Type} [DecidableEq K] (now : Int)
    (k : K) (v : V) (c : TimedCache K V) (h : c.onEvictCall = false) :
    (Add now k v c).2.2 = [] ∧ (Update now k v c).2.2 = [] ∧
    (Get now k c).2.2 = [] ∧ (Peek now k c).2.2 = [] ∧
    (Contains now k c).2.2 = [] ∧ (Remove now k c).2.2 = [] ∧
    (Keys now c).2.2 = [] ∧ (Len now c).2.2 = [] ∧
    (Purge c).2 = [] ∧ (PurgeExpired now c).2 = [] := by
  have h1 : (purgeExpired now c).1.onEvictCall = false := by
    rw [onEvictCall_purgeExpired]
    exact h
  have h2 : (purgeExpired now c).2 = [] := trace_purgeExpired_nil now h
  refine ⟨?_, ?_, ?_, ?_, ?_, ?_, ?_, ?_, ?_, ?_⟩
  · by_cases hk : k ∈ (purgeExpired now c).1.items <;>
      simp [TimedCache.Add, hk, h2]
  · unfold Update
    cases mapGet (purgeExpired now c).1 k <;> simp [h2]
  · unfold Get
    cases mapGet (purgeExpired now c).1 k <;> simp [h2]
  · unfold Peek
    cases mapGet (purgeExpired now c).1 k <;> simp [h2]
  · simp [Contains, h2]
  · unfold Remove
    cases mapGet (purgeExpired now c).1 k <;>
      simp [h2, removeElement, evict, h1]
  · simp [Keys, h2]
  · simp [Len, h2]
  · simp [Purge, h]
  · simpa [PurgeExpired] using h2

/-- Witness for C10: clearing a nil-callback cache holding key 1 produces
no callback invocation. -/
theorem nil_callback_never_invoked_witness :
    (Purge (Add 0 1 "a" (NewTimedCache Nat String 4 false)).2.1).2 = [] :=
  (nil_callback_never_invoked 0 1 "a"
    (Add 0 1 "a" (NewTimedCache Nat String 4 false)).2.1
    (by decide)).2.2.2.2.2.2.2.2.1
